import Mathlib

/-!
Verification of the NexVest ETL and read API (shallow embedding).

The embedding translates `src/etl/finalInfoScript.py`, `src/etl/storage.py`
and `src/routers/historicos.py` into executable Lean definitions.

Conventions of the embedding:
- Calendar dates are natural numbers counting days from an epoch chosen so
  that day 0 is a Monday; thus `d % 7` is exactly the Python
  `date.weekday()` value (Monday = 0 .. Sunday = 6), and adding `k` days
  adds `k` to the number.  ISO date strings compare lexicographically in
  the same order as the underlying days, so the MongoDB string-valued
  `date` field is modelled by the same natural number.
- JSON numeric values carried by rows are modelled as `Option Int`
  (`none` models a JSON null / missing key via `dict.get`); the claims
  under study never compute with the numbers, they only copy them and
  test them against null.
- Network effects are passed in as explicit parameters: a day fetch is a
  function from a date to `Option (List Row)` where `none` models the
  fetch raising an exception, and a Yahoo HTTP attempt is a `YResp`
  value.  The thread pools synchronise all shared-state mutation under a
  single lock (`print_lock`, `_yahoo_crumb_lock`), so the process-wide
  effect of concurrent tasks is a fold of the per-task state transformers
  in an arbitrary serialisation order; theorems quantify over that order
  or over the multiset of outcomes where it matters.
-/

/-! ## Data model (finalInfoScript.py) -/

/-- One raw row of a BVC day snapshot, as consumed by `worker_day`
(fields read via `row.get`, hence `Option`; `mnemonic` and `board` are
read with mandatory indexing in the dict comprehension). -/
structure Row where
  mnemonic : String
  board : String
  lastPrice : Option Int
  openPrice : Option Int
  maximumPrice : Option Int
  minimumPrice : Option Int
  volume : Option Int
  averagePrice : Option Int
  absoluteVariation : Option Int
  percentageVariation : Option Int
deriving Repr, DecidableEq

/-- The normalised output record built by `worker_day` (lines 189-202 of
finalInfoScript.py).  `date` is the resolved date (`used_date`),
`targetDate` the originally requested one. -/
structure HistoricalRecord where
  date : Nat
  targetDate : Nat
  «open» : Option Int
  high : Option Int
  low : Option Int
  close : Option Int
  volume : Option Int
  averagePrice : Option Int
  absoluteVariation : Option Int
  percentageVariation : Option Int
  mnemonic : String
  board : String
deriving Repr, DecidableEq

/-- A tracked security: `{"mnemonic": ..., "board": ...}`. -/
structure Asset where
  mnemonic : String
  board : String
deriving Repr, DecidableEq

/-- The fixed tracked-security list `BVC_ASSETS`. -/
def BVC_ASSETS : List Asset :=
  [ ⟨"ECOPETROL", "EQTY"⟩, ⟨"ISA", "EQTY"⟩, ⟨"GEB", "EQTY"⟩,
    ⟨"PFBCOLOM", "EQTY"⟩, ⟨"NUTRESA", "EQTY"⟩, ⟨"GRUPOSURA", "EQTY"⟩,
    ⟨"CELSIA", "EQTY"⟩, ⟨"EXITO", "EQTY"⟩, ⟨"CEMARGOS", "EQTY"⟩,
    ⟨"CNEC", "EQTY"⟩, ⟨"CORFICOLCF", "EQTY"⟩, ⟨"PROMIGAS", "EQTY"⟩,
    ⟨"MINEROS", "EQTY"⟩, ⟨"CLH", "EQTY"⟩, ⟨"PFDAVVNDA", "EQTY"⟩ ]

/-- `MAX_RETRY_DAYS = 7` (finalInfoScript.py line 50). -/
def MAX_RETRY_DAYS : Nat := 7

/-- The shared progress counters (the `progress` dict; `start_time` is
wall-clock state used only for ETA rendering and is not modelled). -/
structure Progress where
  bvc_done : Nat
  bvc_total : Nat
  bvc_ok : Nat
  bvc_skip : Nat
  bvc_errors : Nat
deriving Repr, DecidableEq

/-- The all-zero initial `progress` dict. -/
def initProgress : Progress := ⟨0, 0, 0, 0, 0⟩

/-! ## Backfill resolver (worker_day, lines 156-179)

The `while candidate.weekday() >= 5: candidate += timedelta(days=1)` loop
advances a Saturday by two days and a Sunday by one day and leaves
weekdays unchanged; `skipWeekend` is that loop in closed form. -/

/-- Advance a date past the weekend exactly as the while loop in
`worker_day` does: Saturday (`d % 7 = 5`) moves forward 2 days, Sunday
(`d % 7 = 6`) moves forward 1 day, weekdays stay. -/
def skipWeekend (d : Nat) : Nat :=
  if d % 7 = 5 then d + 2 else if d % 7 = 6 then d + 1 else d

/-- The probe loop of `worker_day` over a list of deltas.  `fetch`
returns `none` when `fetch_day` raises; the `except` branch only sleeps
and continues, and `tab` is still empty at that point, so an exception is
treated exactly like an empty snapshot.  Returns the first candidate date
with a non-empty snapshot together with that snapshot. -/
def resolveFrom (fetch : Nat → Option (List Row)) (base : Nat) :
    List Nat → Option (Nat × List Row)
  | [] => none
  | delta :: rest =>
    let candidate := skipWeekend (base + delta)
    match fetch candidate with
    | none => resolveFrom fetch base rest
    | some tab =>
      if tab.isEmpty then resolveFrom fetch base rest
      else some (candidate, tab)

/-- The backfill resolver: probe `delta = 0 .. MAX_RETRY_DAYS - 1`. -/
def resolve (fetch : Nat → Option (List Row)) (base : Nat) :
    Option (Nat × List Row) :=
  resolveFrom fetch base (List.range MAX_RETRY_DAYS)

/-- The same loop for a fetch that never raises. -/
def resolvePure (fetch : Nat → List Row) (base : Nat) :
    Option (Nat × List Row) :=
  resolve (fun d => some (fetch d)) base

/-- `weekdays_in_range` (lines 412-418): all weekdays between `start`
and `endd` inclusive. -/
def weekdays_in_range (start endd : Nat) : List Nat :=
  (List.range' start (endd + 1 - start)).filter (fun d => d % 7 < 5)

/-! ## Record extractor (worker_day, lines 181-202) -/

/-- Lookup in the snapshot index
`idx = {(x["mnemonic"], x["board"]): x for x in tab}`: a Python dict
comprehension keeps the last row for a repeated key, so the lookup
returns the last row of `tab` with the given key. -/
def dictGet (tab : List Row) (mn brd : String) : Option Row :=
  (tab.filter (fun x => x.mnemonic == mn && x.board == brd)).getLast?

/-- Build the normalised record for one asset from its snapshot row. -/
def mkRecord (usedDate targetDate : Nat) (a : Asset) (row : Row) :
    HistoricalRecord :=
  { date := usedDate
    targetDate := targetDate
    «open» := row.openPrice
    high := row.maximumPrice
    low := row.minimumPrice
    close := row.lastPrice
    volume := row.volume
    averagePrice := row.averagePrice
    absoluteVariation := row.absoluteVariation
    percentageVariation := row.percentageVariation
    mnemonic := a.mnemonic
    board := a.board }

/-- The extraction loop of `worker_day`: for each tracked asset, look its
row up in the index and emit a record only when the row exists and its
`lastPrice` is not null.  The result is the `{ mnemonic : record }` map
as an association list keyed in `BVC_ASSETS` order. -/
def extract (tab : List Row) (usedDate targetDate : Nat) :
    List (String × HistoricalRecord) :=
  BVC_ASSETS.filterMap (fun a =>
    match dictGet tab a.mnemonic a.board with
    | none => none
    | some row =>
      if row.lastPrice.isSome then
        some (a.mnemonic, mkRecord usedDate targetDate a row)
      else none)

/-- `worker_day`: resolve the target date, then either record a skip and
return the empty map, or extract records and count them as ok.  The
progress mutation happens under `print_lock`; the per-task effect on the
shared counters is returned together with the result map. -/
def worker_day (fetch : Nat → Option (List Row)) (targetDate : Nat)
    (p : Progress) : Progress × List (String × HistoricalRecord) :=
  match resolve fetch targetDate with
  | none =>
    ({ p with bvc_skip := p.bvc_skip + 1, bvc_done := p.bvc_done + 1 }, [])
  | some (usedDate, tab) =>
    let result := extract tab usedDate targetDate
    ({ p with bvc_ok := p.bvc_ok + result.length,
              bvc_done := p.bvc_done + 1 }, result)

/-! ## Orchestrator progress accounting (main, lines 453-466)

A day-task either runs `worker_day` to completion (updating the counters
under `print_lock` in its skip branch or its ok branch and returning a
result map) or raises an uncaught exception before reaching those
updates, in which case `future.result()` re-raises in `main` and only
`bvc_errors` is incremented there.  All counter updates are serialised by
`print_lock`, so a run is a fold of the per-task effects in completion
order. -/

/-- The observable outcome of one day-task. -/
inductive Outcome where
  /-- The task finished `worker_day` with an empty resolution (skip). -/
  | skip : Outcome
  /-- The task finished `worker_day` with a snapshot, extracting `n`
  records. -/
  | ok (n : Nat) : Outcome
  /-- The task raised an uncaught exception (caught in `main`). -/
  | raised : Outcome
deriving Repr, DecidableEq

/-- Effect of one completed task on the shared counters: the two normal
branches of `worker_day` plus the `except` branch of the collection loop
in `main`. -/
def stepProgress (p : Progress) : Outcome → Progress
  | .skip =>
    { p with bvc_skip := p.bvc_skip + 1, bvc_done := p.bvc_done + 1 }
  | .ok n =>
    { p with bvc_ok := p.bvc_ok + n, bvc_done := p.bvc_done + 1 }
  | .raised => { p with bvc_errors := p.bvc_errors + 1 }

/-- Counter state after a run completing the given task outcomes in
order. -/
def runProgress (p : Progress) (outcomes : List Outcome) : Progress :=
  outcomes.foldl stepProgress p

/-- Number of tasks of a run that ended in an uncaught exception. -/
def raisedCount (outcomes : List Outcome) : Nat :=
  (outcomes.filter (fun o => o == .raised)).length

/-! ## Persistence preparation (main, lines 497-500) -/

/-- The sort key relation of `records.sort(key=lambda x: x["date"])`. -/
def recDateLe (a b : HistoricalRecord) : Prop := a.date ≤ b.date

instance : DecidableRel recDateLe := fun a b => Nat.decLe a.date b.date

instance : IsTotal HistoricalRecord recDateLe :=
  ⟨fun a b => Nat.le_total a.date b.date⟩

instance : IsTrans HistoricalRecord recDateLe :=
  ⟨fun _ _ _ => Nat.le_trans⟩

/-- `records.sort(key=lambda x: x["date"])`: a stable sort of the
accumulated records by resolved date (Python uses a stable mergesort;
a stable insertion sort computes the same list). -/
def sortRecordsByDate (records : List HistoricalRecord) :
    List HistoricalRecord :=
  List.insertionSort recDateLe records

/-! ## Yahoo session management (lines 215-364)

The shared globals `_yahoo_session` / `_yahoo_crumb` and the handshake
counter are modelled as an explicit state.  `yahoo_init_session` performs
the multi-step handshake and returns a fresh session; the model counts
its invocations in `inits` and identifies the produced session by that
counter.  The crumb obtained by handshake number `i` is supplied by the
environment function `env i` (`none` models the no-crumb outcome).  All
mutation of the globals happens under `_yahoo_crumb_lock`, so the
process-wide effect of concurrent callers is a fold over a serialisation
order. -/

structure YState where
  /-- `_yahoo_session` (identified by handshake number), `none` until
  first created. -/
  ysession : Option Nat
  /-- `_yahoo_crumb`. -/
  ycrumb : Option String
  /-- Number of `yahoo_init_session` handshakes performed so far. -/
  inits : Nat
deriving Repr, DecidableEq

/-- The state before any Yahoo activity: both globals are `None`. -/
def initialYState : YState := ⟨none, none, 0⟩

/-- `yahoo_init_session`: perform the handshake, returning the new
session (and its crumb) without touching the globals. -/
def yahoo_init_session (env : Nat → Option String) (s : YState) :
    YState × (Nat × Option String) :=
  ({ s with inits := s.inits + 1 }, (s.inits, env s.inits))

/-- `get_yahoo_session_and_crumb`: under `_yahoo_crumb_lock`, initialise
the shared session only if it is still `None`, then return the shared
pair. -/
def get_yahoo_session_and_crumb (env : Nat → Option String) (s : YState) :
    YState × (Option Nat × Option String) :=
  if s.ysession.isNone then
    let (s1, (sess, cr)) := yahoo_init_session env s
    let s2 := { s1 with ysession := some sess, ycrumb := cr }
    (s2, (s2.ysession, s2.ycrumb))
  else (s, (s.ysession, s.ycrumb))

/-- A Yahoo per-ticker OHLCV record (v8 JSON or v7 CSV row). -/
structure TickerRecord where
  date : Nat
  «open» : Int
  high : Int
  low : Int
  close : Int
  adjClose : Int
  volume : Int
  ticker : String
deriving Repr, DecidableEq

/-- Outcome of one HTTP attempt against a Yahoo endpoint, as seen by the
fetch code: a 2xx response whose body parses into records, a non-2xx
status code (401/403 trigger the renewal branch, every other non-success
status makes `raise_for_status` raise), or an exception from the
transport or the body parse. -/
inductive YResp where
  | ok (records : List TickerRecord) : YResp
  | status (code : Nat) : YResp
  | exn : YResp
deriving Repr, DecidableEq

/-- Interpretation of an attempt once past the 401/403 check:
`raise_for_status` plus the JSON decode, whose exceptions are caught by
the enclosing `try` and turned into an empty list. -/
def interpretResp : YResp → List TickerRecord
  | .ok records => records
  | .status _ => []
  | .exn => []

/-- `_yahoo_v8_json`: one attempt; on 401/403, take `_yahoo_crumb_lock`,
unconditionally re-handshake, overwrite the shared globals and retry
exactly once with the renewed session.  Any failure path returns `[]`
(the surrounding `try` prints and swallows the exception). -/
def _yahoo_v8_json (env : Nat → Option String) (s : YState)
    (first second : YResp) : YState × List TickerRecord :=
  match first with
  | .status code =>
    if code = 401 ∨ code = 403 then
      let (s1, (sess, cr)) := yahoo_init_session env s
      let s2 := { s1 with ysession := some sess, ycrumb := cr }
      (s2, interpretResp second)
    else (s, [])
  | .ok records => (s, records)
  | .exn => (s, [])

/-- `_yahoo_v7_csv`: the CSV fallback.  The claims under study do not
concern the CSV line parsing, so its outcome is the interpretation of
the HTTP attempt (malformed lines are dropped inside `records`). -/
def _yahoo_v7_csv (v7 : YResp) : List TickerRecord :=
  interpretResp v7

/-- The HTTP attempts one `download_yahoo_ticker` call may make: the
first v8 attempt, the single post-renewal v8 retry, and the v7
fallback. -/
structure TickerAttempts where
  first : YResp
  second : YResp
  v7 : YResp
deriving Repr, DecidableEq

/-- `download_yahoo_ticker` (lines 290-309): every ticker starts by
performing its own independent handshake (line 297) — it does not call
`get_yahoo_session_and_crumb` — then runs the v8 fetch and falls back to
the v7 CSV when the v8 result is empty. -/
def download_yahoo_ticker (env : Nat → Option String) (s : YState)
    (att : TickerAttempts) : YState × List TickerRecord :=
  let (s1, (_sess, _cr)) := yahoo_init_session env s
  let (s2, records) := _yahoo_v8_json env s1 att.first att.second
  let records2 := if records.isEmpty then _yahoo_v7_csv att.v7 else records
  (s2, records2)

/-- Process-wide effect of a pool of ticker downloads, folded in an
arbitrary completion/serialisation order. -/
def runTickers (env : Nat → Option String) (s : YState)
    (atts : List TickerAttempts) : YState :=
  atts.foldl (fun st att => (download_yahoo_ticker env st att).1) s

/-- Process-wide effect of several `_yahoo_v8_json` calls whose renewal
sections the lock serialises in the given order. -/
def runV8Calls (env : Nat → Option String) (s : YState)
    (calls : List (YResp × YResp)) : YState :=
  calls.foldl (fun st c => (_yahoo_v8_json env st c.1 c.2).1) s

/-! ## Storage (storage.py, lines 53-75)

A MongoDB collection is modelled as the list of its documents in
insertion order.  The stored documents have exactly the record shape, so
`UpdateOne(filter={"date": rec["date"]}, update={"$set": rec},
upsert=True)` replaces every field of the first matching document with
the fields of `rec` — i.e. the first document whose `date` equals
`rec.date` becomes `rec` — and inserts `rec` at the end when no document
matches.  `bulk_write(operations, ordered=False)` is modelled as the
fold of the operations in list order. -/

/-- One `UpdateOne` upsert keyed on the `date` field. -/
def updateOneByDate : List HistoricalRecord → HistoricalRecord →
    List HistoricalRecord
  | [], rec => [rec]
  | d :: ds, rec =>
    if d.date = rec.date then rec :: ds else d :: updateOneByDate ds rec

/-- `upsert_records`: bulk-upsert `records` into the collection, each
matched by its `date` field. -/
def upsert_records (coll : List HistoricalRecord)
    (records : List HistoricalRecord) : List HistoricalRecord :=
  records.foldl updateOneByDate coll

/-! ## Read API (routers/historicos.py)

The database is the list of named collections; an `HTTPException` is
modelled by its status code on the `Except` error side.  The MongoDB
`date` field is an ISO string whose lexicographic order coincides with
the day order, so `$gte`/`$lte` and `sort("date", 1)` are modelled over
the numeric dates. -/

structure MDatabase where
  collections : List (String × List HistoricalRecord)

/-- `db.list_collection_names()`. -/
def list_collection_names (db : MDatabase) : List String :=
  db.collections.map Prod.fst

/-- The documents of collection `name` (empty when absent; the endpoints
only read a collection after checking its name is listed). -/
def getCollection (db : MDatabase) (name : String) :
    List HistoricalRecord :=
  match db.collections.find? (fun c => c.1 == name) with
  | some c => c.2
  | none => []

/-- Python `str.lower()` for the ASCII mnemonics handled by the API
(character-wise lower-casing). -/
def strLower (s : String) : String := ⟨s.data.map Char.toLower⟩

/-- Python `str.upper()` for the ASCII mnemonics handled by the API
(character-wise upper-casing). -/
def strUpper (s : String) : String := ⟨s.data.map Char.toUpper⟩

/-- `_collection_name` (line 34-35). -/
def _collection_name (mnemonic : String) : String :=
  "historico_" ++ strLower mnemonic

/-- The Mongo range query `{"date": {"$gte": desde, "$lte": hasta}}`
built by `get_historico`, with absent bounds omitted. -/
def inRange (desde hasta : Option Nat) (r : HistoricalRecord) : Bool :=
  (desde.all (fun d => decide (d ≤ r.date))) &&
    (hasta.all (fun h => decide (r.date ≤ h)))

/-- The JSON body returned by `get_historico`. -/
structure HistResponse where
  mnemonic : String
  total : Nat
  desde : Option Nat
  hasta : Option Nat
  data : List HistoricalRecord
deriving Repr, DecidableEq

/-- The `effective_limit` computation of `get_historico` (line 104): an
explicit `limit` always applies; otherwise the default of 100 applies
only when no date filter was given. -/
def effectiveLimit (desde hasta : Option Nat) (limit : Option Nat) :
    Option Nat :=
  match limit with
  | some l => some l
  | none => if desde.isSome || hasta.isSome then none else some 100

/-- `cursor.limit(effective_limit)` when a limit applies (lines
107-108). -/
def applyLimit (eff : Option Nat) (l : List HistoricalRecord) :
    List HistoricalRecord :=
  match eff with
  | some n => l.take n
  | none => l

/-- `GET /historicos/{mnemonic}` (lines 64-118): 404 when the collection
does not exist; otherwise filter by the optional range, sort by date
ascending, and apply the limit. -/
def get_historico (db : MDatabase) (mnemonic : String)
    (desde hasta : Option Nat) (limit : Option Nat) :
    Except Nat HistResponse :=
  let col_name := _collection_name mnemonic
  if (list_collection_names db).contains col_name then
    let sorted :=
      sortRecordsByDate
        ((getCollection db col_name).filter (inRange desde hasta))
    let records := applyLimit (effectiveLimit desde hasta limit) sorted
    .ok { mnemonic := strUpper mnemonic, total := records.length,
          desde := desde, hasta := hasta, data := records }
  else .error 404

/-- `GET /historicos/{mnemonic}/{date}` (lines 125-147): 404 when the
collection does not exist or no document has the given date, otherwise
the single matching document. -/
def get_historico_by_date (db : MDatabase) (mnemonic : String)
    (d : Nat) : Except Nat HistoricalRecord :=
  let col_name := _collection_name mnemonic
  if (list_collection_names db).contains col_name then
    match (getCollection db col_name).find? (fun r => r.date == d) with
    | some doc => .ok doc
    | none => .error 404
  else .error 404

/-! ## Lemmas about the backfill resolver -/

theorem skipWeekend_ge (d : Nat) : d ≤ skipWeekend d := by
  unfold skipWeekend
  split
  · omega
  split <;> omega

theorem skipWeekend_weekday_bound (b delta : Nat) (hb : b % 7 < 5)
    (hd : delta < 7) : skipWeekend (b + delta) ≤ b + 7 := by
  unfold skipWeekend
  split
  · omega
  split <;> omega

theorem resolveFrom_bounds (fetch : Nat → Option (List Row)) (base : Nat)
    (ds : List Nat) (hds : ∀ d ∈ ds, d < 7) (used : Nat) (tab : List Row)
    (h : resolveFrom fetch base ds = some (used, tab)) :
    base ≤ used ∧ (base % 7 < 5 → used ≤ base + 7) ∧ tab ≠ [] := by
  induction ds with
  | nil => simp [resolveFrom] at h
  | cons delta rest ih =>
    simp only [resolveFrom] at h
    split at h
    · exact ih (fun d hd => hds d (List.mem_cons_of_mem _ hd)) h
    · split at h
      · exact ih (fun d hd => hds d (List.mem_cons_of_mem _ hd)) h
      · rename_i hne
        rw [Option.some.injEq, Prod.mk.injEq] at h
        obtain ⟨rfl, rfl⟩ := h
        refine ⟨Nat.le_trans (Nat.le_add_right base delta) (skipWeekend_ge _),
          fun hb => skipWeekend_weekday_bound base delta hb
            (hds delta (List.mem_cons_self _ _)), fun hnil => hne ?_⟩
        rw [hnil]
        rfl

/-- Every date the orchestrator dispatches to `worker_day` is a
weekday. -/
theorem weekdays_in_range_weekday (s e d : Nat)
    (h : d ∈ weekdays_in_range s e) : d % 7 < 5 := by
  have := (List.mem_filter.mp h).2
  exact of_decide_eq_true this

/-- C1: for every target date given to the day worker (a weekday
produced by `weekdays_in_range`), if the resolver finds a non-empty
snapshot then the resolved date satisfies `targetDate ≤ resolvedDate`
and `resolvedDate - targetDate ≤ MAX_RETRY_DAYS = 7`; if no candidate in
the horizon yields data, `worker_day` returns the empty result map for
that date. -/
theorem backfill_resolution_bounded (fetch : Nat → Option (List Row))
    (s e base : Nat) (hbase : base ∈ weekdays_in_range s e) :
    (∀ used tab, resolve fetch base = some (used, tab) →
      base ≤ used ∧ used - base ≤ MAX_RETRY_DAYS ∧ tab ≠ []) ∧
    (resolve fetch base = none →
      ∀ p : Progress, (worker_day fetch base p).2 = []) := by
  have hb : base % 7 < 5 := weekdays_in_range_weekday s e base hbase
  constructor
  · intro used tab h
    have hds : ∀ d ∈ List.range MAX_RETRY_DAYS, d < 7 := by
      intro d hd
      exact List.mem_range.mp hd
    obtain ⟨h1, h2, h3⟩ := resolveFrom_bounds fetch base _ hds used tab h
    exact ⟨h1, by have := h2 hb; unfold MAX_RETRY_DAYS; omega, h3⟩
  · intro hnone p
    unfold worker_day
    rw [hnone]

/-- Witness for C1 at a concrete weekday target and a fetch that always
raises. -/
theorem backfill_resolution_bounded_witness :
    (0 ∈ weekdays_in_range 0 0) ∧
    ((∀ used tab, resolve (fun _ => none) 0 = some (used, tab) →
        0 ≤ used ∧ used - 0 ≤ MAX_RETRY_DAYS ∧ tab ≠ []) ∧
      (resolve (fun _ => none) 0 = none →
        ∀ p : Progress, (worker_day (fun _ => none) 0 p).2 = [])) :=
  ⟨by decide,
    backfill_resolution_bounded (fun _ => none) 0 0 0 (by decide)⟩

/-! ## C6: probe failures are empty candidates, exhaustion is a skip -/

theorem resolveFrom_exception_as_empty (fetch : Nat → Option (List Row))
    (base : Nat) (ds : List Nat) :
    resolveFrom fetch base ds =
      resolveFrom (fun d => some ((fetch d).getD [])) base ds := by
  induction ds with
  | nil => rfl
  | cons delta rest ih =>
    simp only [resolveFrom]
    cases hf : fetch (skipWeekend (base + delta)) with
    | none => simpa using ih
    | some tab =>
      simp only [Option.getD_some]
      cases htab : tab.isEmpty <;> simp [htab, ih]

/-- C6: a probe candidate whose fetch raises is treated exactly like an
empty snapshot and the loop continues with the next delta (the resolver
over a fetch that may raise computes the same result as the resolver
over the raise-free fetch that returns an empty snapshot at the failure
points); when all horizon deltas are exhausted without a non-empty
snapshot, `worker_day` counts the date as a skip (`bvc_skip` and
`bvc_done` increase, `bvc_errors` does not) and returns the empty result
map. -/
theorem probe_failure_is_empty_then_skip
    (fetch : Nat → Option (List Row)) (base : Nat) :
    resolve fetch base = resolvePure (fun d => (fetch d).getD []) base ∧
    (resolve fetch base = none → ∀ p : Progress,
      worker_day fetch base p =
        ({ p with bvc_skip := p.bvc_skip + 1,
                  bvc_done := p.bvc_done + 1 }, [])) := by
  constructor
  · exact resolveFrom_exception_as_empty fetch base _
  · intro hnone p
    unfold worker_day
    rw [hnone]

/-- Witness for C6: a fetch raising on every candidate resolves to
nothing and the date is recorded as a skip. -/
theorem probe_failure_is_empty_then_skip_witness :
    worker_day (fun _ => none) 3 initProgress =
      ({ initProgress with bvc_skip := initProgress.bvc_skip + 1,
                           bvc_done := initProgress.bvc_done + 1 }, []) :=
  (probe_failure_is_empty_then_skip (fun _ => none) 3).2 (by decide)
    initProgress

/-! ## C2: progress counters over a completed run -/

theorem raisedCount_le_length (outcomes : List Outcome) :
    raisedCount outcomes ≤ outcomes.length :=
  List.length_filter_le _ _

theorem raisedCount_cons (o : Outcome) (rest : List Outcome) :
    raisedCount (o :: rest) =
      raisedCount rest + (if o = Outcome.raised then 1 else 0) := by
  cases o <;> rfl

theorem runProgress_done_errors (p : Progress) (outcomes : List Outcome) :
    (runProgress p outcomes).bvc_done =
      p.bvc_done + (outcomes.length - raisedCount outcomes) ∧
    (runProgress p outcomes).bvc_errors =
      p.bvc_errors + raisedCount outcomes := by
  induction outcomes generalizing p with
  | nil => simp [runProgress, raisedCount]
  | cons o rest ih =>
    have hle := raisedCount_le_length rest
    have hstep : runProgress p (o :: rest) =
        runProgress (stepProgress p o) rest := rfl
    obtain ⟨ihd, ihe⟩ := ih (stepProgress p o)
    rw [hstep, raisedCount_cons]
    cases o <;> (rw [ihd, ihe] ; simp [stepProgress] ; omega)

/-- C2 counterexample: in a run of N = 1 day-tasks of which k = 1 ends
in an uncaught exception, the code leaves `bvc_done = 0`, not
`bvc_done = N = 1` as the claim states (the task raises before reaching
the `bvc_done` update inside `worker_day`, and `main` only increments
`bvc_errors`). -/
theorem progress_done_counterexample :
    raisedCount [Outcome.raised] = 1 ∧
    [Outcome.raised].length = 1 ∧
    (runProgress initProgress [Outcome.raised]).bvc_errors = 1 ∧
    (runProgress initProgress [Outcome.raised]).bvc_done = 0 ∧
    ¬ (runProgress initProgress [Outcome.raised]).bvc_done = 1 := by
  decide

/-- C2 amended: in a run completing N day-tasks of which k end in an
uncaught exception, the final counters satisfy `bvc_done = N - k` and
`bvc_errors = k`; `bvc_done` increases by exactly 1 per task that
finishes `worker_day` normally (skip or data) and is unchanged by a task
that raises, which instead increments only `bvc_errors`; the per-task
effect of a normally finishing `worker_day` on the counters is exactly
the `skip` or `ok` step. -/
theorem progress_counters_amended (outcomes : List Outcome) :
    (runProgress initProgress outcomes).bvc_done =
      outcomes.length - raisedCount outcomes ∧
    (runProgress initProgress outcomes).bvc_errors =
      raisedCount outcomes ∧
    (∀ p o, o ≠ Outcome.raised →
      (stepProgress p o).bvc_done = p.bvc_done + 1) ∧
    (∀ p, (stepProgress p Outcome.raised).bvc_done = p.bvc_done ∧
      (stepProgress p Outcome.raised).bvc_errors = p.bvc_errors + 1) ∧
    (∀ fetch target p, (worker_day fetch target p).1 =
      stepProgress p
        (match resolve fetch target with
         | none => Outcome.skip
         | some (u, tab) => Outcome.ok (extract tab u target).length)) := by
  obtain ⟨hd, he⟩ := runProgress_done_errors initProgress outcomes
  refine ⟨by simpa [initProgress] using hd,
    by simpa [initProgress] using he, ?_, ?_, ?_⟩
  · intro p o ho
    cases o with
    | skip => rfl
    | ok n => rfl
    | raised => exact absurd rfl ho
  · intro p
    exact ⟨rfl, rfl⟩
  · intro fetch target p
    unfold worker_day
    cases h : resolve fetch target with
    | none => rfl
    | some v => cases v with | mk u tab => rfl

/-- Witness for C2 (amended) on a concrete run with one error among
three tasks. -/
theorem progress_counters_amended_witness :
    ((runProgress initProgress
        [Outcome.ok 3, Outcome.raised, Outcome.skip]).bvc_done =
      [Outcome.ok 3, Outcome.raised, Outcome.skip].length -
        raisedCount [Outcome.ok 3, Outcome.raised, Outcome.skip]) ∧
    (Outcome.skip ≠ Outcome.raised ∧
      (stepProgress initProgress Outcome.skip).bvc_done =
        initProgress.bvc_done + 1) :=
  ⟨(progress_counters_amended
      [Outcome.ok 3, Outcome.raised, Outcome.skip]).1,
    by decide,
    (progress_counters_amended []).2.2.1 initProgress Outcome.skip
      (by decide)⟩

/-! ## C7: records are sorted by resolved date before persistence -/

/-- C7: for every security accumulator, whatever the arrival order of
the concurrently completing day-tasks, the list handed to persistence is
the accumulated records (a permutation) sorted in non-decreasing order
of their resolved `date` field. -/
theorem persisted_records_sorted (records : List HistoricalRecord) :
    List.Sorted recDateLe (sortRecordsByDate records) ∧
    (sortRecordsByDate records).Perm records :=
  ⟨List.sorted_insertionSort recDateLe records,
    List.perm_insertionSort recDateLe records⟩

/-! ## C5: extraction membership -/

/-- A snapshot row for ECOPETROL/EQTY with a non-null closing price. -/
def rowEcoGood : Row :=
  { mnemonic := "ECOPETROL", board := "EQTY", lastPrice := some 1,
    openPrice := none, maximumPrice := none, minimumPrice := none,
    volume := none, averagePrice := none, absoluteVariation := none,
    percentageVariation := none }

/-- The same key with a null closing price. -/
def rowEcoNull : Row := { rowEcoGood with lastPrice := none }

/-- C5 counterexample: the claimed equivalence "entry present iff the
snapshot contains a row with that (mnemonic, board) key whose lastPrice
is non-null" fails on a snapshot holding two rows with the same key: the
dict comprehension index keeps the last row, so a non-null row shadowed
by a later null row yields no entry even though a qualifying row is
present in the snapshot. -/
theorem extract_presence_counterexample :
    (Asset.mk "ECOPETROL" "EQTY") ∈ BVC_ASSETS ∧
    (∃ row ∈ [rowEcoGood, rowEcoNull],
      row.mnemonic = "ECOPETROL" ∧ row.board = "EQTY" ∧
        row.lastPrice.isSome) ∧
    extract [rowEcoGood, rowEcoNull] 0 0 = [] ∧
    ¬ ∃ r ∈ extract [rowEcoGood, rowEcoNull] 0 0, r.1 = "ECOPETROL" := by
  decide

/-- No two distinct tracked assets share a mnemonic. -/
theorem bvc_assets_mnemonic_inj :
    ∀ a ∈ BVC_ASSETS, ∀ b ∈ BVC_ASSETS,
      a.mnemonic = b.mnemonic → a = b := by
  decide

/-- C5 amended: for every snapshot and tracked security
(mnemonic, board), the extraction result has an entry for that mnemonic
if and only if the LAST snapshot row carrying that (mnemonic, board) key
(the one the dict index retains) has a non-null lastPrice; in that case
the entry is the normalised record built from that row.  Securities
without such a row are silently absent (no error is possible: extraction
is a total function). -/
theorem extract_presence_iff (tab : List Row) (u t : Nat) (a : Asset)
    (ha : a ∈ BVC_ASSETS) :
    (∃ r, (a.mnemonic, r) ∈ extract tab u t) ↔
      (∃ row, dictGet tab a.mnemonic a.board = some row ∧
        row.lastPrice.isSome) := by
  constructor
  · rintro ⟨r, hr⟩
    obtain ⟨b, hb, hfb⟩ := List.mem_filterMap.mp hr
    cases hrow : dictGet tab b.mnemonic b.board with
    | none => rw [hrow] at hfb ; exact absurd hfb (by simp)
    | some row =>
      rw [hrow] at hfb
      dsimp only at hfb
      cases hlp : row.lastPrice.isSome with
      | false => rw [hlp] at hfb ; simp at hfb
      | true =>
        rw [hlp] at hfb
        simp only [if_true, Option.some.injEq, Prod.mk.injEq] at hfb
        obtain ⟨hmn, _⟩ := hfb
        have hba : b = a := bvc_assets_mnemonic_inj b hb a ha hmn
        subst hba
        exact ⟨row, hrow, hlp⟩
  · rintro ⟨row, hrow, hlp⟩
    refine ⟨mkRecord u t a row, List.mem_filterMap.mpr ⟨a, ha, ?_⟩⟩
    rw [hrow]
    simp [hlp]

/-- Witness for C5 (amended) at a concrete snapshot containing a single
qualifying ECOPETROL row. -/
theorem extract_presence_iff_witness :
    (Asset.mk "ECOPETROL" "EQTY") ∈ BVC_ASSETS ∧
    ((∃ r, ((Asset.mk "ECOPETROL" "EQTY").mnemonic, r) ∈
        extract [rowEcoGood] 7 3) ↔
      (∃ row, dictGet [rowEcoGood] (Asset.mk "ECOPETROL" "EQTY").mnemonic
          (Asset.mk "ECOPETROL" "EQTY").board = some row ∧
        row.lastPrice.isSome)) :=
  ⟨by decide, extract_presence_iff [rowEcoGood] 7 3 _ (by decide)⟩

/-! ## C3 and C4: Yahoo session renewal and sharing

The difference between the final and the initial `inits` field of a run
is the number of handshakes (session creations / renewals) the run
performed. -/

/-- An environment in which no handshake yields a crumb. -/
def envNone : Nat → Option String := fun _ => none

/-- A Yahoo session state in READY condition: the shared session exists
(created by one earlier handshake) and has a crumb. -/
def readyYState : YState := ⟨some 0, some "crumb", 1⟩

/-- Does this HTTP attempt outcome enter the renewal branch? -/
def isAuthFailure : YResp → Bool
  | .status code => code == 401 || code == 403
  | _ => false

/-- A non-empty Yahoo record, to make the happy path of a download
concrete. -/
def sampleTickerRecord : TickerRecord := ⟨0, 1, 1, 1, 1, 1, 0, "VOO"⟩

/-- C3 counterexample: two tickers whose fetches observe HTTP 401
"simultaneously" (their renewal sections are serialised by
`_yahoo_crumb_lock` in some order) cause two session renewals, because
each failing call re-runs `yahoo_init_session` unconditionally inside
the lock instead of reusing a renewal already performed by the other —
the claimed single-flight behaviour (exactly one renewal process-wide)
is absent. -/
theorem yahoo_renewal_counterexample :
    (runV8Calls envNone readyYState
        [(YResp.status 401, YResp.ok [sampleTickerRecord]),
         (YResp.status 401, YResp.ok [sampleTickerRecord])]).inits -
      readyYState.inits = 2 ∧ (2 : Nat) ≠ 1 := by
  decide

theorem v8_inits_of_authFailure (env : Nat → Option String) (s : YState)
    (first second : YResp) (h : isAuthFailure first = true) :
    (_yahoo_v8_json env s first second).1.inits = s.inits + 1 ∧
    (_yahoo_v8_json env s first second).2 = interpretResp second := by
  cases first with
  | ok records => simp [isAuthFailure] at h
  | exn => simp [isAuthFailure] at h
  | status code =>
    have hcode : code = 401 ∨ code = 403 := by
      simp only [isAuthFailure, Bool.or_eq_true, beq_iff_eq] at h
      exact h
    simp [_yahoo_v8_json, yahoo_init_session, hcode]

theorem v8_state_of_no_authFailure (env : Nat → Option String)
    (s : YState) (first second : YResp)
    (h : isAuthFailure first = false) :
    (_yahoo_v8_json env s first second).1 = s := by
  cases first with
  | ok records => rfl
  | exn => rfl
  | status code =>
    have hcode : ¬ (code = 401 ∨ code = 403) := by
      intro hc
      rcases hc with h1 | h1 <;> (subst h1 ; simp [isAuthFailure] at h)
    simp [_yahoo_v8_json, hcode]

/-- C3 amended: when concurrent ticker fetches observe HTTP 401/403,
the lock serialises one session renewal PER failing call (general fold:
the number of renewals equals the number of calls whose first attempt is
a 401/403, so k simultaneous failures renew k times — not single-flight);
each failing call retries exactly once after its own renewal (its result
is the interpretation of the single retry attempt), a call whose first
attempt is not a 401/403 performs no renewal, and a call still failing
after the retry yields an empty record list rather than an exception
(the error is logged and swallowed), so the run does not crash. -/
theorem yahoo_renewal_per_failing_call (env : Nat → Option String)
    (s : YState) (calls : List (YResp × YResp)) :
    ((runV8Calls env s calls).inits =
      s.inits + (calls.filter (fun c => isAuthFailure c.1)).length) ∧
    (∀ s1 first second, isAuthFailure first = true →
      (_yahoo_v8_json env s1 first second).1.inits = s1.inits + 1 ∧
      (_yahoo_v8_json env s1 first second).2 = interpretResp second) ∧
    (∀ s1 first second, isAuthFailure first = false →
      (_yahoo_v8_json env s1 first second).1 = s1) ∧
    (∀ s1 first code, isAuthFailure first = true → 400 ≤ code →
      (_yahoo_v8_json env s1 first (YResp.status code)).2 = []) := by
  refine ⟨?_, fun s1 first second h =>
      v8_inits_of_authFailure env s1 first second h,
    fun s1 first second h =>
      v8_state_of_no_authFailure env s1 first second h,
    fun s1 first code h _ => ?_⟩
  · induction calls generalizing s with
    | nil => simp [runV8Calls]
    | cons c rest ih =>
      have hrun : runV8Calls env s (c :: rest) =
          runV8Calls env (_yahoo_v8_json env s c.1 c.2).1 rest := rfl
      rw [hrun, ih]
      cases hfail : isAuthFailure c.1 with
      | true =>
        rw [(v8_inits_of_authFailure env s c.1 c.2 hfail).1]
        simp [List.filter_cons, hfail]
        omega
      | false =>
        rw [v8_state_of_no_authFailure env s c.1 c.2 hfail]
        simp [List.filter_cons, hfail]
  · exact (v8_inits_of_authFailure env s1 first (YResp.status code) h).2

/-- Witness for C3 (amended) on a concrete serialisation of two failing
calls and one succeeding call. -/
theorem yahoo_renewal_per_failing_call_witness :
    ((runV8Calls envNone readyYState
        [(YResp.status 401, YResp.status 401),
         (YResp.status 403, YResp.ok [sampleTickerRecord]),
         (YResp.ok [sampleTickerRecord], YResp.exn)]).inits =
      readyYState.inits +
        (([(YResp.status 401, YResp.status 401),
           (YResp.status 403, YResp.ok [sampleTickerRecord]),
           (YResp.ok [sampleTickerRecord], YResp.exn)].filter
            (fun c => isAuthFailure c.1)).length)) ∧
    (isAuthFailure (YResp.status 401) = true ∧
      (_yahoo_v8_json envNone readyYState (YResp.status 401)
          (YResp.status 401)).2 = []) :=
  ⟨(yahoo_renewal_per_failing_call envNone readyYState _).1,
    by decide,
    (yahoo_renewal_per_failing_call envNone readyYState []).2.2.2
      readyYState (YResp.status 401) 401 (by decide) (by decide)⟩

/-- C4 counterexample: with the shared session READY (already created,
with a crumb), downloading two tickers whose fetches succeed still
performs two handshakes — `download_yahoo_ticker` opens its own
independent session for every ticker (line 297) instead of reusing the
shared one, contradicting "no ticker performs its own independent
handshake while the shared session is valid" and "created exactly
once". -/
theorem yahoo_shared_session_counterexample :
    (runTickers envNone readyYState
        [⟨YResp.ok [sampleTickerRecord], YResp.exn, YResp.exn⟩,
         ⟨YResp.ok [sampleTickerRecord], YResp.exn, YResp.exn⟩]).inits -
      readyYState.inits = 2 ∧ (2 : Nat) ≠ 0 := by
  decide

/-- A call finding the shared session already created returns it
unchanged, performing no handshake. -/
theorem get_yahoo_reuse (env : Nat → Option String) (s : YState)
    (h : s.ysession.isSome = true) :
    get_yahoo_session_and_crumb env s = (s, (s.ysession, s.ycrumb)) := by
  have hn : s.ysession.isNone = false := by
    cases hs : s.ysession with
    | none => rw [hs] at h ; simp at h
    | some v => rfl
  unfold get_yahoo_session_and_crumb
  rw [hn]
  simp

/-- One `_yahoo_v8_json` call never decreases the handshake counter. -/
theorem v8_inits_mono (env : Nat → Option String) (s : YState)
    (first second : YResp) :
    s.inits ≤ (_yahoo_v8_json env s first second).1.inits := by
  cases hfail : isAuthFailure first with
  | true =>
    rw [(v8_inits_of_authFailure env s first second hfail).1]
    omega
  | false => rw [v8_state_of_no_authFailure env s first second hfail]

/-- C4 amended: the shared session held in `_yahoo_session` is indeed
created lazily at most once by `get_yahoo_session_and_crumb` (a call
finding it READY returns it unchanged with no handshake, a call finding
it absent creates it with exactly one handshake, and any later call
returns that same session unchanged), but `download_yahoo_ticker` does
not use this shared session on its fetch path: every ticker download
performs at least one handshake of its own — exactly one when its first
attempt is not an authorization failure — even while the shared session
is valid. -/
theorem yahoo_session_lazy_once_but_per_ticker
    (env : Nat → Option String) (s : YState) (att : TickerAttempts) :
    (s.ysession.isSome = true →
      get_yahoo_session_and_crumb env s = (s, (s.ysession, s.ycrumb))) ∧
    (s.ysession = none →
      (get_yahoo_session_and_crumb env s).1.inits = s.inits + 1 ∧
      (get_yahoo_session_and_crumb env s).1.ysession.isSome = true ∧
      get_yahoo_session_and_crumb env
          (get_yahoo_session_and_crumb env s).1 =
        ((get_yahoo_session_and_crumb env s).1,
          ((get_yahoo_session_and_crumb env s).1.ysession,
            (get_yahoo_session_and_crumb env s).1.ycrumb))) ∧
    (s.inits + 1 ≤ (download_yahoo_ticker env s att).1.inits) ∧
    (isAuthFailure att.first = false →
      (download_yahoo_ticker env s att).1.inits = s.inits + 1) := by
  have hd : (download_yahoo_ticker env s att).1 =
      (_yahoo_v8_json env { s with inits := s.inits + 1 }
        att.first att.second).1 := rfl
  refine ⟨get_yahoo_reuse env s, ?_, ?_, ?_⟩
  · intro h
    have h1 : get_yahoo_session_and_crumb env s =
        ({ s with
            inits := s.inits + 1
            ysession := some s.inits
            ycrumb := env s.inits },
          (some s.inits, env s.inits)) := by
      unfold get_yahoo_session_and_crumb yahoo_init_session
      rw [h]
      rfl
    rw [h1]
    exact ⟨rfl, rfl, get_yahoo_reuse env _ rfl⟩
  · rw [hd]
    exact v8_inits_mono env { s with inits := s.inits + 1 }
      att.first att.second
  · intro h
    rw [hd, v8_state_of_no_authFailure env _ att.first att.second h]

/-! ## C8: idempotent upsert keyed by the date field -/

theorem updateOne_head_eq (d : HistoricalRecord)
    (ds : List HistoricalRecord) (rec : HistoricalRecord)
    (hd : d.date = rec.date) :
    updateOneByDate (d :: ds) rec = rec :: ds := by
  simp [updateOneByDate, hd]

theorem updateOne_head_ne (d : HistoricalRecord)
    (ds : List HistoricalRecord) (rec : HistoricalRecord)
    (hd : ¬ d.date = rec.date) :
    updateOneByDate (d :: ds) rec = d :: updateOneByDate ds rec := by
  simp [updateOneByDate, hd]

/-- Filtering by a date, unfolded one document at a time. -/
theorem filterDate_cons (x : HistoricalRecord)
    (l : List HistoricalRecord) (n : Nat) :
    (x :: l).filter (fun y => y.date == n) =
      if x.date = n then x :: l.filter (fun y => y.date == n)
      else l.filter (fun y => y.date == n) := by
  by_cases hx : x.date = n <;> simp [List.filter_cons, hx]

/-- First document with a date, unfolded one document at a time. -/
theorem findDate_cons (x : HistoricalRecord)
    (l : List HistoricalRecord) (n : Nat) :
    (x :: l).find? (fun y => y.date == n) =
      if x.date = n then some x else l.find? (fun y => y.date == n) := by
  by_cases hx : x.date = n <;> simp [List.find?_cons, hx]

/-- Upserting the same record twice into a collection holding at most
one document with its date leaves exactly the one document `rec` at that
date. -/
theorem updateOne_twice_filter (coll : List HistoricalRecord)
    (rec : HistoricalRecord)
    (h : (coll.filter (fun x => x.date == rec.date)).length ≤ 1) :
    (updateOneByDate (updateOneByDate coll rec) rec).filter
      (fun x => x.date == rec.date) = [rec] := by
  induction coll with
  | nil => simp [updateOneByDate]
  | cons d ds ih =>
    by_cases hd : d.date = rec.date
    · have hfd : ds.filter (fun x => x.date == rec.date) = [] := by
        apply List.length_eq_zero.mp
        rw [filterDate_cons, if_pos hd] at h
        simp only [List.length_cons] at h
        omega
      rw [updateOne_head_eq d ds rec hd,
        updateOne_head_eq rec ds rec rfl,
        filterDate_cons, if_pos rfl, hfd]
    · rw [filterDate_cons, if_neg hd] at h
      rw [updateOne_head_ne d ds rec hd,
        updateOne_head_ne d (updateOneByDate ds rec) rec hd,
        filterDate_cons, if_neg hd]
      exact ih h

/-- After an upsert of `rec`, the first document with date `rec.date` is
`rec`. -/
theorem find_updateOne_self (coll : List HistoricalRecord)
    (rec : HistoricalRecord) :
    (updateOneByDate coll rec).find? (fun x => x.date == rec.date) =
      some rec := by
  induction coll with
  | nil =>
    rw [show updateOneByDate [] rec = [rec] from rfl,
      findDate_cons, if_pos rfl]
  | cons d ds ih =>
    by_cases hd : d.date = rec.date
    · rw [updateOne_head_eq d ds rec hd, findDate_cons, if_pos rfl]
    · rw [updateOne_head_ne d ds rec hd, findDate_cons, if_neg hd]
      exact ih

/-- Upserting `rec` does not change the first document carrying any
other date. -/
theorem find_updateOne_other (coll : List HistoricalRecord)
    (rec : HistoricalRecord) (m : Nat) (hm : m ≠ rec.date) :
    (updateOneByDate coll rec).find? (fun x => x.date == m) =
      coll.find? (fun x => x.date == m) := by
  induction coll with
  | nil =>
    rw [show updateOneByDate [] rec = [rec] from rfl,
      findDate_cons, if_neg (fun he => hm he.symm)]
  | cons d ds ih =>
    by_cases hd : d.date = rec.date
    · rw [updateOne_head_eq d ds rec hd, findDate_cons,
        if_neg (fun he => hm he.symm), findDate_cons,
        if_neg (show ¬ d.date = m by
          intro he ; rw [hd] at he ; exact hm he.symm)]
    · rw [updateOne_head_ne d ds rec hd, findDate_cons, findDate_cons]
      by_cases hdm : d.date = m
      · rw [if_pos hdm, if_pos hdm]
      · rw [if_neg hdm, if_neg hdm]
        exact ih

/-- An upsert whose record already sits first at its date is the
identity. -/
theorem updateOne_of_find_self (coll : List HistoricalRecord)
    (rec : HistoricalRecord)
    (h : coll.find? (fun x => x.date == rec.date) = some rec) :
    updateOneByDate coll rec = coll := by
  induction coll with
  | nil => simp [List.find?] at h
  | cons d ds ih =>
    by_cases hd : d.date = rec.date
    · rw [findDate_cons, if_pos hd] at h
      have hdr : d = rec := by injection h
      rw [updateOne_head_eq d ds rec hd, hdr]
    · rw [findDate_cons, if_neg hd] at h
      rw [updateOne_head_ne d ds rec hd, ih h]

/-- A bulk upsert touching none of the date `m` leaves the first
document at `m` unchanged. -/
theorem find_upsert_not_mem (records : List HistoricalRecord)
    (coll : List HistoricalRecord) (m : Nat)
    (hm : m ∉ records.map (fun r => r.date)) :
    (upsert_records coll records).find? (fun x => x.date == m) =
      coll.find? (fun x => x.date == m) := by
  induction records generalizing coll with
  | nil => rfl
  | cons rec rest ih =>
    rw [List.map_cons] at hm
    have hm1 : m ≠ rec.date := by
      intro he
      subst he
      exact hm (List.mem_cons_self _ _)
    have hm2 : m ∉ rest.map (fun r => r.date) := fun hx =>
      hm (List.mem_cons_of_mem _ hx)
    have hstep : upsert_records coll (rec :: rest) =
        upsert_records (updateOneByDate coll rec) rest := rfl
    rw [hstep, ih (updateOneByDate coll rec) hm2,
      find_updateOne_other coll rec m hm1]

/-- Replaying a bulk upsert with per-call-distinct dates is the
identity on the already-upserted collection. -/
theorem upsert_records_idem (coll records : List HistoricalRecord)
    (h : (records.map (fun r => r.date)).Nodup) :
    upsert_records (upsert_records coll records) records =
      upsert_records coll records := by
  induction records generalizing coll with
  | nil => rfl
  | cons rec rest ih =>
    rw [List.map_cons] at h
    have hnot : rec.date ∉ rest.map (fun r => r.date) :=
      (List.nodup_cons.mp h).1
    have hrest : (rest.map (fun r => r.date)).Nodup :=
      (List.nodup_cons.mp h).2
    have hstep : upsert_records coll (rec :: rest) =
        upsert_records (updateOneByDate coll rec) rest := rfl
    have hfind : (upsert_records (updateOneByDate coll rec)
        rest).find? (fun x => x.date == rec.date) = some rec := by
      rw [find_upsert_not_mem rest (updateOneByDate coll rec)
        rec.date hnot]
      exact find_updateOne_self coll rec
    have hstep2 : upsert_records
        (upsert_records (updateOneByDate coll rec) rest)
        (rec :: rest) =
        upsert_records
          (updateOneByDate
            (upsert_records (updateOneByDate coll rec) rest) rec)
          rest := rfl
    rw [hstep, hstep2, updateOne_of_find_self _ rec hfind,
      ih (updateOneByDate coll rec) hrest]

/-- C8: for every collection state with at most one stored document per
date (the invariant the upsert maintains), upserting the same record
twice leaves exactly one stored document at that date, equal to the
second (identical) write; and re-running a bulk upsert over a record
list keyed by date (pairwise-distinct record dates, overlapping
arbitrarily with what is already stored) leaves the collection
unchanged — the bulk upsert is idempotent keyed by the date field. -/
theorem upsert_idempotent_keyed_by_date
    (coll records : List HistoricalRecord) (rec : HistoricalRecord)
    (hcoll : (coll.filter (fun x => x.date == rec.date)).length ≤ 1)
    (hrecords : (records.map (fun r => r.date)).Nodup) :
    ((upsert_records (upsert_records coll [rec]) [rec]).filter
        (fun x => x.date == rec.date) = [rec]) ∧
    upsert_records (upsert_records coll records) records =
      upsert_records coll records :=
  ⟨updateOne_twice_filter coll rec hcoll,
    upsert_records_idem coll records hrecords⟩

/-- A stored ECOPETROL document used by the C8 witness. -/
def recA : HistoricalRecord :=
  { date := 1, targetDate := 1, «open» := none, high := none,
    low := none, close := some 10, volume := none, averagePrice := none,
    absoluteVariation := none, percentageVariation := none,
    mnemonic := "ECOPETROL", board := "EQTY" }

/-- A second document with a different date. -/
def recB : HistoricalRecord := { recA with date := 2, close := some 20 }

/-- Witness for C8 on a concrete empty collection and a two-record
batch. -/
theorem upsert_idempotent_keyed_by_date_witness :
    ((([] : List HistoricalRecord).filter
        (fun x => x.date == recA.date)).length ≤ 1) ∧
    (([recA, recB].map (fun r => r.date)).Nodup) ∧
    (((upsert_records (upsert_records [] [recA]) [recA]).filter
        (fun x => x.date == recA.date) = [recA]) ∧
      upsert_records (upsert_records [] [recA, recB]) [recA, recB] =
        upsert_records [] [recA, recB]) :=
  ⟨by decide, by decide,
    upsert_idempotent_keyed_by_date [] [recA, recB] recA
      (by decide) (by decide)⟩

/-- Witness for C4 (amended): reuse from READY, one handshake from the
empty state, and one per-ticker handshake on a successful download. -/
theorem yahoo_session_lazy_once_but_per_ticker_witness :
    (get_yahoo_session_and_crumb envNone readyYState =
      (readyYState, (readyYState.ysession, readyYState.ycrumb))) ∧
    ((get_yahoo_session_and_crumb envNone initialYState).1.inits =
      initialYState.inits + 1) ∧
    ((download_yahoo_ticker envNone readyYState
        ⟨YResp.ok [sampleTickerRecord], YResp.exn, YResp.exn⟩).1.inits =
      readyYState.inits + 1) :=
  ⟨(yahoo_session_lazy_once_but_per_ticker envNone readyYState
      ⟨YResp.ok [sampleTickerRecord], YResp.exn, YResp.exn⟩).1 (by decide),
    ((yahoo_session_lazy_once_but_per_ticker envNone initialYState
      ⟨YResp.ok [sampleTickerRecord], YResp.exn, YResp.exn⟩).2.1 rfl).1,
    (yahoo_session_lazy_once_but_per_ticker envNone readyYState
      ⟨YResp.ok [sampleTickerRecord], YResp.exn, YResp.exn⟩).2.2.2
      (by decide)⟩

/-! ## C9 and C10: read API -/

theorem sorted_applyLimit (eff : Option Nat)
    (l : List HistoricalRecord) (h : List.Sorted recDateLe l) :
    List.Sorted recDateLe (applyLimit eff l) := by
  cases eff with
  | none => exact h
  | some n => exact List.Pairwise.sublist (List.take_sublist n l) h

theorem applyLimit_subset (eff : Option Nat)
    (l : List HistoricalRecord) : applyLimit eff l ⊆ l := by
  cases eff with
  | none => exact fun _ h => h
  | some n => exact (List.take_sublist n l).subset

theorem applyLimit_nil (eff : Option Nat) :
    applyLimit eff ([] : List HistoricalRecord) = [] := by
  cases eff <;> simp [applyLimit]

/-- C9: querying `GET /historicos/{mnemonic}`: when no collection exists
for the mnemonic the endpoint fails with 404; otherwise it answers 200
with the matching records sorted by date ascending (every returned
record matches the requested range, the reported total counts them, and
with a date range and no explicit limit ALL matching records are
returned), and an existing mnemonic whose collection has no record in
the requested range yields an empty data list, not an error. -/
theorem get_historico_spec (db : MDatabase) (mnemonic : String)
    (desde hasta : Option Nat) (limit : Option Nat) :
    ((list_collection_names db).contains (_collection_name mnemonic) =
        false →
      get_historico db mnemonic desde hasta limit = .error 404) ∧
    ((list_collection_names db).contains (_collection_name mnemonic) =
        true →
      ∃ resp, get_historico db mnemonic desde hasta limit = .ok resp ∧
        List.Sorted recDateLe resp.data ∧
        (∀ r ∈ resp.data, inRange desde hasta r = true) ∧
        resp.total = resp.data.length ∧
        (limit = none → (desde.isSome || hasta.isSome) = true →
          resp.data.Perm
            ((getCollection db (_collection_name mnemonic)).filter
              (inRange desde hasta))) ∧
        ((getCollection db (_collection_name mnemonic)).filter
            (inRange desde hasta) = [] →
          resp.data = [])) := by
  constructor
  · intro h
    unfold get_historico
    dsimp only
    rw [h]
    rfl
  · intro h
    have hmain : get_historico db mnemonic desde hasta limit =
        .ok { mnemonic := strUpper mnemonic
              total := (applyLimit (effectiveLimit desde hasta limit)
                (sortRecordsByDate
                  ((getCollection db (_collection_name mnemonic)).filter
                    (inRange desde hasta)))).length
              desde := desde
              hasta := hasta
              data := applyLimit (effectiveLimit desde hasta limit)
                (sortRecordsByDate
                  ((getCollection db (_collection_name mnemonic)).filter
                    (inRange desde hasta))) } := by
      unfold get_historico
      dsimp only
      rw [h]
      rfl
    refine ⟨_, hmain, ?_, ?_, rfl, ?_, ?_⟩
    · exact sorted_applyLimit _ _
        (List.sorted_insertionSort recDateLe _)
    · intro r hr
      have hr1 : r ∈ sortRecordsByDate
          ((getCollection db (_collection_name mnemonic)).filter
            (inRange desde hasta)) := applyLimit_subset _ _ hr
      have hr2 : r ∈ (getCollection db
          (_collection_name mnemonic)).filter (inRange desde hasta) :=
        (List.perm_insertionSort recDateLe _).subset hr1
      exact List.of_mem_filter hr2
    · intro hlim hflag
      have heff : effectiveLimit desde hasta limit = none := by
        rw [hlim]
        unfold effectiveLimit
        rw [hflag]
        rfl
      rw [heff]
      exact List.perm_insertionSort recDateLe _
    · intro hempty
      rw [hempty]
      exact applyLimit_nil _

/-- A small database with one ECOPETROL collection, used by the API
witnesses. -/
def dbWitness : MDatabase := ⟨[("historico_ecopetrol", [recB, recA])]⟩

/-- Witness for C9: the 404 branch on a missing collection and the ok
branch on an existing one. -/
theorem get_historico_spec_witness :
    (get_historico dbWitness "GEB" none none none = .error 404) ∧
    (∃ resp, get_historico dbWitness "ECOPETROL" none none none =
        .ok resp ∧
      List.Sorted recDateLe resp.data ∧
      (∀ r ∈ resp.data, inRange none none r = true) ∧
      resp.total = resp.data.length ∧
      (none = (none : Option Nat) →
        ((none : Option Nat).isSome || (none : Option Nat).isSome) =
          true →
        resp.data.Perm
          ((getCollection dbWitness (_collection_name "ECOPETROL")).filter
            (inRange none none))) ∧
      ((getCollection dbWitness (_collection_name "ECOPETROL")).filter
          (inRange none none) = [] →
        resp.data = [])) :=
  ⟨(get_historico_spec dbWitness "GEB" none none none).1 (by decide),
    (get_historico_spec dbWitness "ECOPETROL" none none none).2
      (by decide)⟩

/-- C10: the read endpoints are case-insensitive in the mnemonic: two
mnemonics equal up to case address the same collection, so the by-date
endpoint returns identical results, the range endpoint returns the same
records (and fails with 404 together), and the mnemonic echoed in a
successful range response is always the upper-cased mnemonic. -/
theorem mnemonic_case_insensitive (db : MDatabase) (m1 m2 : String)
    (hlow : strLower m1 = strLower m2) (desde hasta : Option Nat)
    (limit : Option Nat) (d : Nat) :
    get_historico_by_date db m1 d = get_historico_by_date db m2 d ∧
    ((get_historico db m1 desde hasta limit).toOption.map
        (fun resp => resp.data) =
      (get_historico db m2 desde hasta limit).toOption.map
        (fun resp => resp.data)) ∧
    (get_historico db m1 desde hasta limit = .error 404 ↔
      get_historico db m2 desde hasta limit = .error 404) ∧
    (∀ resp, get_historico db m1 desde hasta limit = .ok resp →
      resp.mnemonic = strUpper m1) := by
  have hcol : _collection_name m1 = _collection_name m2 := by
    unfold _collection_name
    rw [hlow]
  refine ⟨?_, ?_, ?_, ?_⟩
  · unfold get_historico_by_date
    dsimp only
    rw [hcol]
  · unfold get_historico
    dsimp only
    rw [hcol]
    cases hc : (list_collection_names db).contains (_collection_name m2)
      <;> rfl
  · unfold get_historico
    dsimp only
    rw [hcol]
    cases hc : (list_collection_names db).contains (_collection_name m2)
    · exact Iff.rfl
    · constructor <;> (intro hx ; exact absurd hx (by simp))
  · intro resp hresp
    unfold get_historico at hresp
    dsimp only at hresp
    split at hresp
    · rw [Except.ok.injEq] at hresp
      rw [← hresp]
    · exact absurd hresp (by simp)

/-- Witness for C10 on a concrete database and the case variants
"EcoPetrol" and "ecopetrol". -/
theorem mnemonic_case_insensitive_witness :
    (strLower "EcoPetrol" = strLower "ecopetrol") ∧
    (get_historico_by_date dbWitness "EcoPetrol" 1 =
      get_historico_by_date dbWitness "ecopetrol" 1) ∧
    ((get_historico dbWitness "EcoPetrol" none none none).toOption.map
        (fun resp => resp.data) =
      (get_historico dbWitness "ecopetrol" none none none).toOption.map
        (fun resp => resp.data)) :=
  ⟨by decide,
    (mnemonic_case_insensitive dbWitness "EcoPetrol" "ecopetrol"
      (by decide) none none none 1).1,
    (mnemonic_case_insensitive dbWitness "EcoPetrol" "ecopetrol"
      (by decide) none none none 1).2.1⟩
